import Mathlib

/-!
Shallow embedding of the holograph-rs network monitor (`src/main.rs` and
`src/events/mod.rs`) in Lean 4, together with proofs about the block watcher
(`network_subscribe`), the block-job queue and its drain loop (`run`), the
block processor (`process_block`) and the generic `retry` combinator.

Machine integers (`u64`) are modelled as `Nat`; where the source performs
wrapping arithmetic this is made explicit with `% 2 ^ 64`.
-/

namespace Holograph

/-- Size of the `u64` value space. -/
def U64_SIZE : Nat := 2 ^ 64

/-- Rust `a.wrapping_sub(b)` on `u64`, for `a b < U64_SIZE`. -/
def wrappingSub (a b : Nat) : Nat := (a + U64_SIZE - b) % U64_SIZE

/-- Mirrors `struct BlockJob { network: String, block: u64 }` from `src/main.rs`. -/
structure BlockJob where
  network : String
  block : Nat
deriving Repr, DecidableEq

/-- The slice of an ethers `Block` that the live code reads: only the optional
block number (`actual_block.number`). -/
structure EthBlock where
  number : Option Nat
deriving Repr, DecidableEq

/-- The two messages `network_subscribe` sends on the log channel: the
"Resuming previously dropped connection" gap notice and the
"A new block has been mined" notice, each carrying the block height that the
format string interpolates. No other message is ever sent by the watcher. -/
inductive WatcherLog where
  | resuming (block : Nat)
  | newBlock (block : Nat)
deriving Repr, DecidableEq

/-- Watcher-visible state for one network: the task-local `last_block`
option, this network's entry in the shared `current_block_height` map, and
this network's `Vec<BlockJob>` in the shared `block_jobs` map (pushes append
at the tail, i.e. at the end of the list). -/
structure WatcherState where
  lastBlock : Option Nat
  currentBlockHeight : Option Nat
  blockJobs : List BlockJob
deriving Repr, DecidableEq

/-- Computes `actual_block.number.unwrap_or(U64::from(0)).as_u64()` with the outer
`if let Some(actual_block) = block` defaulting to `0`: the height the watcher
derives from one `get_block` fetch result. -/
def observedHeight : Option EthBlock → Nat
  | some b => b.number.getD 0
  | none => 0

/-- One iteration of the `while let Some(new_block_hash) = stream.next()` loop
body of `network_subscribe`, applied to the derived height `h`
(`current_block_u64` in the source): duplicate heights are skipped before any
state update; a forward gap first sends the resuming notice and pushes one job
per missing height in ascending order; then `last_block` and the
`current_block_height` entry are set to `h`, a job for `h` is pushed, and the
new-block notice is sent. Returns the updated state and the messages sent. -/
def watcherStep (net : String) (s : WatcherState) (h : Nat) :
    WatcherState × List WatcherLog :=
  match s.lastBlock with
  | some lb =>
    if lb = h then
      (s, [])
    else
      let gapLogs : List WatcherLog :=
        if lb + 1 < h then [WatcherLog.resuming h] else []
      let gapJobs : List BlockJob :=
        if lb + 1 < h then
          (List.range' (lb + 1) (h - (lb + 1))).map (fun b => ⟨net, b⟩)
        else []
      ({ lastBlock := some h
         currentBlockHeight := some h
         blockJobs := s.blockJobs ++ gapJobs ++ [⟨net, h⟩] },
       gapLogs ++ [WatcherLog.newBlock h])
  | none =>
      ({ lastBlock := some h
         currentBlockHeight := some h
         blockJobs := s.blockJobs ++ [⟨net, h⟩] },
       [WatcherLog.newBlock h])

/-- Runs `watcherStep` directly on a `get_block` fetch result. -/
def watcherStepFetch (net : String) (s : WatcherState) (r : Option EthBlock) :
    WatcherState × List WatcherLog :=
  watcherStep net s (observedHeight r)

/-- Run the watcher loop over a list of observed heights, starting from an
arbitrary state, accumulating the sent messages. -/
def runWatcherFrom (net : String) : WatcherState → List Nat →
    WatcherState × List WatcherLog
  | s, [] => (s, [])
  | s, h :: rest =>
    let step := watcherStep net s h
    let tail := runWatcherFrom net step.1 rest
    (tail.1, step.2 ++ tail.2)

/-- The state a freshly spawned watcher task starts from: `last_block = None`,
no entry yet in either shared map. -/
def initialWatcherState : WatcherState := ⟨none, none, []⟩

/-- Run the watcher loop over a list of observed heights from the initial
state. -/
def runWatcher (net : String) (hs : List Nat) : WatcherState × List WatcherLog :=
  runWatcherFrom net initialWatcherState hs

/-- Rust `Vec::pop`: removes and returns the LAST element, if any. -/
def vecPop {α : Type} (v : List α) : Option (α × List α) :=
  match v.reverse with
  | [] => none
  | x :: rest => some (x, rest.reverse)

/-- The drain loop of the block-job task in `run`:
`while let Some(block_job) = jobs_for_network.pop() { process_block(block_job) }`,
with a fuel bound for structural recursion (each pop shortens the vector, so
`v.length` fuel is always enough). Returns the jobs in the order they are
handed to `process_block`. -/
def drainLoop : Nat → List BlockJob → List BlockJob
  | 0, _ => []
  | fuel + 1, v =>
    match vecPop v with
    | none => []
    | some (j, rest) => j :: drainLoop fuel rest

/-- The drain loop of `run`, started on a job vector. -/
def drainJobs (v : List BlockJob) : List BlockJob := drainLoop v.length v

/-- The message of the `io::Error` that `retry` constructs on exhaustion:
`format!("Maximum attempts reached, function did not succeed after {} attempts", attempts)`.
It is a fixed message, independent of the wrapped operation's own errors. -/
def maxAttemptsMsg (attempts : Nat) : String :=
  "Maximum attempts reached, function did not succeed after "
    ++ toString attempts ++ " attempts"

/-- Observable trace of one `retry` call: the returned `Result`, how many
times `func` was invoked, the total milliseconds slept, and the error strings
passed to `structured_log_error`. -/
structure RetryTrace (T : Type) where
  result : Except String T
  calls : Nat
  sleepMillis : Nat
  errorLogs : List String

/-- The `for i in 0..attempts` loop of `NetworkMonitor::retry`, with `func`'s
result on its `n`-th invocation given by `func n` (errors converted to their
`to_string()`). `calls`, `slept` and `logs` accumulate the invocations made so
far, the milliseconds slept so far and the errors logged so far. On `Ok` the
result is returned at once; on `Err` the error is logged, the loop returns the
exhaustion error if this was the last attempt, and otherwise sleeps
`interval` milliseconds and continues. The fall-through after the loop (dead
for `attempts > 0`) returns the "Unexpected error in retry loop" error. -/
def retryAux {T : Type} (func : Nat → Except String T) (attempts interval : Nat) :
    Nat → Nat → Nat → List String → RetryTrace T
  | i, calls, slept, logs =>
    if i < attempts then
      match func i with
      | Except.ok result => ⟨Except.ok result, calls + 1, slept, logs⟩
      | Except.error e =>
        if i = attempts - 1 then
          ⟨Except.error (maxAttemptsMsg attempts), calls + 1, slept, logs ++ [e]⟩
        else
          retryAux func attempts interval (i + 1) (calls + 1) (slept + interval)
            (logs ++ [e])
    else
      ⟨Except.error "Unexpected error in retry loop", calls, slept, logs⟩
termination_by i => attempts - i

/-- Mirrors `NetworkMonitor::retry(network, func, attempts, interval)`. -/
def retry {T : Type} (func : Nat → Except String T) (attempts interval : Nat) :
    RetryTrace T :=
  retryAux func attempts interval 0 0 0 []

/-- A log record as the bloom model needs it: emitting address and topic
hashes (hashes modelled as `Nat`). -/
structure LogEntry where
  address : Nat
  topics : List Nat
deriving Repr, DecidableEq

/-- Mirrors `InterestingTransaction` from `src/types.rs` (transaction and receipt
payloads are irrelevant to every claim and collapsed to `Unit`). -/
structure InterestingTransaction where
  bloomId : String
  transaction : Unit
  receipt : Option Unit
  log : Option LogEntry
  allLogs : Option (List LogEntry)
deriving Repr, DecidableEq

/-- How one `process_block` run ended: the `Ok(Some(block))` branch (with the
computed recency flag), the `Ok(None)` branch (the
"No block was returned" println — a benign skip), the `Err(e)` branch (error
silently swallowed, the logging call is commented out), or the missing-provider
fall-through (the `if let Some(provider)` guard fails and nothing happens). -/
inductive BlockFetchOutcome where
  | processed (isRecent : Bool)
  | skippedNoBlock
  | fetchError (msg : String)
  | noProvider
deriving Repr, DecidableEq

/-- Observable result of one `process_block` call: the final
`interesting_transactions` vector, which branch ran, whether `get_logs` was
called, and whether the downstream hand-off (`process_transactions2`) ran. -/
structure ProcessResult where
  interestingTransactions : List InterestingTransaction
  outcome : BlockFetchOutcome
  logsFetched : Bool
  handedOff : Bool
deriving Repr, DecidableEq

/-- Computes `let is_recent_block = current_height.wrapping_sub(job.block) < 5;`. -/
def isRecentBlock (currentHeight jobBlock : Nat) : Bool :=
  wrappingSub currentHeight jobBlock < 5

/-- Mirrors `NetworkMonitor::process_block(job)`. `providers` is the key set of
`self.providers`; `currentHeights` is the shared `current_block_height` map;
`fetchResult` is what `provider.get_block_with_txs(job.block)` returned.
The bloom screening (`check_bloom_logs`), the `get_logs` fetch, transaction
classification (`filter_transactions2`), the hand-off
(`process_transactions2`) and the job handler (`block_job_handler`) are all
commented-out TODO blocks in the source, so no branch fetches logs, hands off,
or ever pushes into `interesting_transactions`. -/
def processBlock (providers : List String) (currentHeights : String → Option Nat)
    (job : BlockJob) (fetchResult : Except String (Option EthBlock)) :
    ProcessResult :=
  if job.network ∈ providers then
    match fetchResult with
    | Except.ok (some _block) =>
      let currentHeight := (currentHeights job.network).getD 0
      { interestingTransactions := []
        outcome := BlockFetchOutcome.processed (isRecentBlock currentHeight job.block)
        logsFetched := false
        handedOff := false }
    | Except.ok none =>
      { interestingTransactions := []
        outcome := BlockFetchOutcome.skippedNoBlock
        logsFetched := false
        handedOff := false }
    | Except.error e =>
      { interestingTransactions := []
        outcome := BlockFetchOutcome.fetchError e
        logsFetched := false
        handedOff := false }
  else
    { interestingTransactions := []
      outcome := BlockFetchOutcome.noProvider
      logsFetched := false
      handedOff := false }

/-- Mirrors `EventType` from `src/events/mod.rs`. -/
inductive EventType where
  | UNKNOWN
  | TBD
  | TransferERC20
  | HolographableTransferERC20
  | TransferERC721
  | HolographableTransferERC721
  | TransferSingleERC1155
  | HolographableTransferSingleERC1155
  | TransferBatchERC1155
  | HolographableTransferBatchERC1155
  | BridgeableContractDeployed
  | CrossChainMessageSent
  | AvailableOperatorJob
  | FinishedOperatorJob
  | FailedOperatorJob
  | PacketLZ
  | V1PacketLZ
  | TestLzEvent
  | HolographableContractEvent
deriving Repr, DecidableEq

/-- Modelled from the spec: the source leaves the bloom screen unimplemented
(`BloomFilter` is a placeholder `Vec<u8>`, `build_filter` returns `vec![]` and
`check_bloom_logs` exists only inside a commented-out TODO block), so the
fingerprint is modelled from §3/§4.2 of the design: a signature hash plus an
optional target address. -/
structure BloomFingerprint where
  sigHash : Nat
  target : Option Nat
deriving Repr, DecidableEq

/-- Modelled from the spec: a block as the bloom screen sees it — its bloom
field (the set of hashes possibly present, a compact summary of the logs) and
its actual logs. -/
structure BloomBlock where
  bloom : List Nat
  logs : List LogEntry
deriving Repr, DecidableEq

/-- Modelled from the spec: one fingerprint test against a bloom field — the
signature hash, and the target address when one is set, must be possibly
present. -/
def fingerprintMatches (bloom : List Nat) (fp : BloomFingerprint) : Bool :=
  bloom.contains fp.sigHash && fp.target.all (fun a => bloom.contains a)

/-- Modelled from the spec: `matches(block_bloom, index)` — the subset of
event kinds whose fingerprint possibly appears in the bloom field. -/
def bloomMatches (bloom : List Nat) (index : List (EventType × BloomFingerprint)) :
    List EventType :=
  (index.filter (fun p => fingerprintMatches bloom p.2)).map (fun p => p.1)

/-- A log truly carries the fingerprint: the signature hash is among its
topics and, when the fingerprint targets an address, the log's emitter is that
address. -/
def logCarries (fp : BloomFingerprint) (log : LogEntry) : Bool :=
  log.topics.contains fp.sigHash && fp.target.all (fun a => log.address == a)

/-- The event kind of a fingerprint is truly present in the block: some log of
the block carries the fingerprint. -/
def trulyPresent (b : BloomBlock) (fp : BloomFingerprint) : Bool :=
  b.logs.any (logCarries fp)

/-- The bloom field is a sound summary of the block's logs: every log's
emitting address and every topic of every log is possibly present in it. This
is the defining property of a chain's block bloom construction. -/
def bloomSound (b : BloomBlock) : Prop :=
  ∀ log ∈ b.logs, log.address ∈ b.bloom ∧ ∀ t ∈ log.topics, t ∈ b.bloom

instance (b : BloomBlock) : Decidable (bloomSound b) :=
  inferInstanceAs
    (Decidable (∀ log ∈ b.logs, log.address ∈ b.bloom ∧ ∀ t ∈ log.topics, t ∈ b.bloom))

theorem U64_SIZE_eq : U64_SIZE = 18446744073709551616 := by
  norm_num [U64_SIZE]

theorem drainLoop_eq_reverse (v : List BlockJob) :
    ∀ fuel, v.length ≤ fuel → drainLoop fuel v = v.reverse := by
  induction v using List.reverseRecOn with
  | nil => intro fuel _; cases fuel <;> simp [drainLoop, vecPop]
  | append_singleton xs x ih =>
    intro fuel hfuel
    rcases fuel with _ | f
    · simp at hfuel
    · have hpop : vecPop (xs ++ [x]) = some (x, xs) := by
        simp [vecPop]
      have hlen : xs.length ≤ f := by
        simp at hfuel; omega
      simp [drainLoop, hpop, ih f hlen]

theorem drainJobs_eq_reverse (v : List BlockJob) : drainJobs v = v.reverse :=
  drainLoop_eq_reverse v v.length (Nat.le_refl _)

/-- C1: the Block Job Queue is NOT drained oldest-first. Jobs are appended at
the tail of the per-network `Vec`, but the drain loop in `run` removes with
`Vec::pop`, i.e. from the TAIL: after the watcher enqueues heights 100 then
101, the processor is handed 101 first, a strictly decreasing height order,
contradicting the claimed head-first (FIFO, non-decreasing) drain. -/
theorem c1_drain_pops_newest_first :
    drainJobs ((runWatcher "optimism" [100, 101]).1.blockJobs)
      = [⟨"optimism", 101⟩, ⟨"optimism", 100⟩] := by
  rw [drainJobs_eq_reverse]
  decide

theorem chain'_le_getLastD :
    ∀ (hs : List Nat) (lb : Nat), List.Chain' (· ≤ ·) (lb :: hs) →
      lb ≤ hs.getLastD lb := by
  intro hs
  induction hs with
  | nil => intro lb _; simp
  | cons h rest ih =>
    intro lb hchain
    rw [List.chain'_cons] at hchain
    calc lb ≤ h := hchain.1
      _ ≤ rest.getLastD h := ih h hchain.2
      _ = (h :: rest).getLastD lb := (List.getLastD_cons lb h rest).symm

theorem gap_jobs_close_range (net : String) (lb h : Nat) (hlt : lb < h) :
    (if lb + 1 < h then
        (List.range' (lb + 1) (h - (lb + 1))).map (fun b => (⟨net, b⟩ : BlockJob))
      else []) ++ [(⟨net, h⟩ : BlockJob)]
      = (List.range' (lb + 1) (h - lb)).map (fun b => (⟨net, b⟩ : BlockJob)) := by
  rcases Nat.lt_or_ge (lb + 1) h with hgap | hnogap
  · rw [if_pos hgap]
    have hn : h - lb = (h - (lb + 1)) + 1 := by omega
    have hconcat := @List.range'_concat 1 (lb + 1) (h - (lb + 1))
    have hh : lb + 1 + 1 * (h - (lb + 1)) = h := by omega
    rw [hn, hconcat, hh, List.map_append]
    simp
  · have heq : h = lb + 1 := by omega
    rw [if_neg (by omega)]
    subst heq
    simp

/-- Invariant of the watcher loop: starting from a state whose last recorded
height is `lb`, a non-decreasing observation sequence leaves the state with
last and current height equal to the final observation and appends exactly
one job per height in `(lb, last]`, in ascending order. -/
theorem runWatcherFrom_closes_range (net : String) :
    ∀ (hs : List Nat) (s : WatcherState) (lb : Nat),
      s.lastBlock = some lb →
      s.currentBlockHeight = some lb →
      List.Chain' (· ≤ ·) (lb :: hs) →
      (runWatcherFrom net s hs).1 =
        { lastBlock := some (hs.getLastD lb)
          currentBlockHeight := some (hs.getLastD lb)
          blockJobs := s.blockJobs ++
            (List.range' (lb + 1) (hs.getLastD lb - lb)).map (fun b => ⟨net, b⟩) } := by
  intro hs
  induction hs with
  | nil =>
    intro s lb hlb hcbh _
    cases s
    simp_all [runWatcherFrom]
  | cons h rest ih =>
    intro s lb hlb hcbh hchain
    rw [List.chain'_cons] at hchain
    obtain ⟨hle, hchain'⟩ := hchain
    have hrun : (runWatcherFrom net s (h :: rest)).1
        = (runWatcherFrom net (watcherStep net s h).1 rest).1 := by
      simp [runWatcherFrom]
    rcases Nat.eq_or_lt_of_le hle with heq | hlt
    · subst heq
      have hstep : watcherStep net s lb = (s, []) := by
        simp [watcherStep, hlb]
      rw [hrun, hstep]
      rw [ih s lb hlb hcbh hchain']
      rw [List.getLastD_cons]
    · have hne : lb ≠ h := by omega
      have hstep : (watcherStep net s h).1 =
          { lastBlock := some h
            currentBlockHeight := some h
            blockJobs := s.blockJobs ++
              (List.range' (lb + 1) (h - lb)).map (fun b => ⟨net, b⟩) } := by
        simp only [watcherStep, hlb]
        rw [if_neg hne]
        rw [List.append_assoc, gap_jobs_close_range net lb h hlt]
      rw [hrun, hstep]
      rw [ih _ h rfl rfl hchain']
      have hlast : lb ≤ rest.getLastD h := by
        have := chain'_le_getLastD rest h hchain'
        omega
      have hhlast : h ≤ rest.getLastD h := chain'_le_getLastD rest h hchain'
      have happ := List.range'_append (lb + 1) (h - lb) (rest.getLastD h - h) 1
      have h1 : lb + 1 + 1 * (h - lb) = h + 1 := by omega
      have h2 : rest.getLastD h - h + (h - lb) = rest.getLastD h - lb := by omega
      rw [h1, h2] at happ
      rw [List.getLastD_cons]
      simp only [List.append_assoc, ← List.map_append, happ]

/-- C2: for any non-decreasing observation sequence (duplicates and forward
gaps allowed), the per-network list of emitted BlockJob heights, after
removing duplicates, is exactly the integer range from the first observed
height to the last, in ascending order; and on a forward gap
(`hn > lb + 1`) one step emits the gap-recovery notification followed by the
new-block notification, and appends one job per height strictly between
`lb` and `hn` in ascending order followed by the job for `hn`. -/
theorem c2_no_height_skipped (net : String) (h0 : Nat) (hs : List Nat)
    (hmono : List.Chain' (· ≤ ·) (h0 :: hs)) :
    (((runWatcher net (h0 :: hs)).1.blockJobs.map BlockJob.block).dedup
        = List.range' h0 (hs.getLastD h0 - h0 + 1))
    ∧ ∀ (s : WatcherState) (lb hn : Nat), s.lastBlock = some lb → lb + 1 < hn →
        watcherStep net s hn =
          ({ lastBlock := some hn
             currentBlockHeight := some hn
             blockJobs := s.blockJobs
               ++ (List.range' (lb + 1) (hn - (lb + 1))).map (fun b => ⟨net, b⟩)
               ++ [⟨net, hn⟩] },
           [WatcherLog.resuming hn, WatcherLog.newBlock hn]) := by
  constructor
  · have hrun : (runWatcher net (h0 :: hs)).1
        = (runWatcherFrom net (watcherStep net initialWatcherState h0).1 hs).1 := by
      simp [runWatcher, runWatcherFrom]
    have hstep : (watcherStep net initialWatcherState h0).1
        = ⟨some h0, some h0, [⟨net, h0⟩]⟩ := by
      simp [watcherStep, initialWatcherState]
    have hjobs : (runWatcher net (h0 :: hs)).1.blockJobs
        = ⟨net, h0⟩ ::
            (List.range' (h0 + 1) (hs.getLastD h0 - h0)).map (fun b => ⟨net, b⟩) := by
      rw [hrun, hstep,
        runWatcherFrom_closes_range net hs ⟨some h0, some h0, [⟨net, h0⟩]⟩ h0 rfl rfl hmono]
      rfl
    rw [hjobs]
    simp only [List.map_cons, List.map_map]
    rw [show (BlockJob.block ∘ fun b => (⟨net, b⟩ : BlockJob)) = id from rfl,
      List.map_id]
    show (h0 :: List.range' (h0 + 1) (hs.getLastD h0 - h0)).dedup = _
    rw [← List.range'_succ]
    exact List.Nodup.dedup (List.nodup_range' _ _)
  · intro s lb hn hlb hgap
    have hne : lb ≠ hn := by omega
    simp [watcherStep, hlb, hne, hgap]

/-- C2 witness: observations [100, 101, 105] yield, after dedup, exactly the
heights 100–105 in ascending order. -/
theorem c2_witness :
    List.Chain' (· ≤ ·) [100, 101, 105]
    ∧ ((runWatcher "optimism" [100, 101, 105]).1.blockJobs.map BlockJob.block).dedup
        = [100, 101, 102, 103, 104, 105] := by
  have hchain : List.Chain' (· ≤ ·) [100, 101, 105] := by
    simp [List.chain'_cons]
  refine ⟨hchain, ?_⟩
  have h := (c2_no_height_skipped "optimism" 100 [101, 105] hchain).1
  exact h.trans (by decide)

/-- C3 counterexample: feeding heights [100, 99] (a regression) does NOT
leave the state untouched: the watcher enqueues a BlockJob for 99, lowers the
CurrentHeight entry from 100 to 99, and announces 99 with the ordinary
new-block notification; no anomaly notification is emitted (none exists in
the watcher's message vocabulary). -/
theorem c3_counterexample :
    (runWatcher "optimism" [100, 99]).1.blockJobs
        = [⟨"optimism", 100⟩, ⟨"optimism", 99⟩]
    ∧ (runWatcher "optimism" [100, 99]).1.currentBlockHeight = some 99
    ∧ (runWatcher "optimism" [100, 99]).2
        = [WatcherLog.newBlock 100, WatcherLog.newBlock 99] := by
  decide

/-- C3 (amended): a height regression is not special-cased. On observing
`h < lb` (the last recorded height), the watcher records `h` as the new last
block, overwrites CurrentHeight down to `h`, enqueues BlockJob(h), and emits
only the ordinary new-block notification — so CurrentHeight can decrease and
no distinct anomaly notification is produced. -/
theorem c3_regression_accepted (net : String) (s : WatcherState) (lb h : Nat)
    (hlb : s.lastBlock = some lb) (hreg : h < lb) :
    watcherStep net s h =
      ({ lastBlock := some h
         currentBlockHeight := some h
         blockJobs := s.blockJobs ++ [⟨net, h⟩] },
       [WatcherLog.newBlock h]) := by
  have hne : lb ≠ h := by omega
  have hnogap : ¬ lb + 1 < h := by omega
  simp [watcherStep, hlb, hne, hnogap]

/-- C3 witness: the amended regression behavior at the concrete input
`[100]` then `99`. -/
theorem c3_witness :
    ((⟨some 100, some 100, [⟨"optimism", 100⟩]⟩ : WatcherState).lastBlock = some 100
      ∧ 99 < 100)
    ∧ watcherStep "optimism" ⟨some 100, some 100, [⟨"optimism", 100⟩]⟩ 99 =
        (⟨some 99, some 99, [⟨"optimism", 100⟩, ⟨"optimism", 99⟩]⟩,
         [WatcherLog.newBlock 99]) := by
  refine ⟨⟨rfl, by omega⟩, ?_⟩
  have h := c3_regression_accepted "optimism"
    ⟨some 100, some 100, [⟨"optimism", 100⟩]⟩ 100 99 rfl (by omega)
  simpa using h

/-- C6: when the fetch succeeds but the chain reports no block at the job's
height (`Ok(None)`), `process_block` takes the benign-skip branch: no error
outcome, no log retrieval, no hand-off, and zero interesting transactions. -/
theorem c6_unavailable_block_is_benign_skip (providers : List String)
    (currentHeights : String → Option Nat) (job : BlockJob)
    (hp : job.network ∈ providers) :
    processBlock providers currentHeights job (Except.ok none) =
      { interestingTransactions := []
        outcome := BlockFetchOutcome.skippedNoBlock
        logsFetched := false
        handedOff := false } := by
  simp [processBlock, hp]

/-- C6 witness: the benign skip at a concrete job. -/
theorem c6_witness :
    ((⟨"optimism", 7⟩ : BlockJob).network ∈ ["optimism"])
    ∧ processBlock ["optimism"] (fun _ => none) ⟨"optimism", 7⟩ (Except.ok none) =
        { interestingTransactions := []
          outcome := BlockFetchOutcome.skippedNoBlock
          logsFetched := false
          handedOff := false } :=
  ⟨by simp, c6_unavailable_block_is_benign_skip ["optimism"] (fun _ => none)
    ⟨"optimism", 7⟩ (by simp)⟩

/-- C8: a duplicate height observation is a complete no-op. Feeding the same
height twice yields exactly the run obtained from feeding it once — in
particular exactly one BlockJob for that height and no state change or extra
message from the second observation. -/
theorem c8_duplicate_is_noop (net : String) (h : Nat) :
    runWatcher net [h, h] = runWatcher net [h]
    ∧ (runWatcher net [h, h]).1.blockJobs = [⟨net, h⟩] := by
  constructor <;>
    simp [runWatcher, runWatcherFrom, watcherStep, initialWatcherState]

/-- C9: on every input, `process_block` ends with an empty
`interesting_transactions` vector, never fetches logs and never hands off to
a downstream handler — the bloom screening, log retrieval, classification and
hand-off stages are commented-out TODOs in the source. -/
theorem c9_processor_emits_nothing (providers : List String)
    (currentHeights : String → Option Nat) (job : BlockJob)
    (fetchResult : Except String (Option EthBlock)) :
    (processBlock providers currentHeights job fetchResult).interestingTransactions = []
    ∧ (processBlock providers currentHeights job fetchResult).logsFetched = false
    ∧ (processBlock providers currentHeights job fetchResult).handedOff = false := by
  by_cases hmem : job.network ∈ providers <;>
    rcases fetchResult with e | _ | b <;>
    simp [processBlock, hmem]

/-- C10 counterexample: a failed block-details fetch is NOT always turned
into a recorded height 0 plus BlockJob(0). Two consecutive no-block fetches
enqueue only one job: the second observation of height 0 is skipped as a
duplicate (no record, no job). -/
theorem c10_counterexample :
    (runWatcher "optimism" ([none, none].map observedHeight)).1.blockJobs
        = [⟨"optimism", 0⟩]
    ∧ watcherStepFetch "optimism" ⟨some 0, some 0, [⟨"optimism", 0⟩]⟩ none
        = (⟨some 0, some 0, [⟨"optimism", 0⟩]⟩, []) := by
  decide

/-- C10 (amended): when the fetch returns no block, or a block whose number
is missing, the watcher treats the observed height as 0 and runs the ordinary
height logic: provided the last recorded height is not already 0, it records
CurrentHeight = 0 (overwriting any previous value) and enqueues BlockJob(0);
when the last recorded height is already 0, the observation is skipped as a
duplicate. -/
theorem c10_missing_block_treated_as_zero (net : String) (s : WatcherState)
    (r : Option EthBlock)
    (hr : r = none ∨ ∃ b, r = some b ∧ b.number = none)
    (hnz : s.lastBlock ≠ some 0) :
    watcherStepFetch net s r =
      ({ lastBlock := some 0
         currentBlockHeight := some 0
         blockJobs := s.blockJobs ++ [⟨net, 0⟩] },
       [WatcherLog.newBlock 0]) := by
  have h0 : observedHeight r = 0 := by
    rcases hr with rfl | ⟨b, rfl, hb⟩
    · rfl
    · simp [observedHeight, hb]
  unfold watcherStepFetch
  rw [h0]
  rcases hlb : s.lastBlock with _ | lb
  · simp [watcherStep, hlb]
  · have hne : lb ≠ 0 := by
      intro h; exact hnz (by rw [hlb, h])
    have hnogap : ¬ lb + 1 < 0 := by omega
    simp [watcherStep, hlb, hne, hnogap]

/-- C10 witness: the amended behavior at a concrete state with last recorded
height 100 and a fetch that returned no block. -/
theorem c10_witness :
    (((none : Option EthBlock) = none
        ∨ ∃ b, (none : Option EthBlock) = some b ∧ b.number = none)
      ∧ (⟨some 100, some 100, [⟨"optimism", 100⟩]⟩ : WatcherState).lastBlock ≠ some 0)
    ∧ watcherStepFetch "optimism" ⟨some 100, some 100, [⟨"optimism", 100⟩]⟩ none =
        (⟨some 0, some 0, [⟨"optimism", 100⟩, ⟨"optimism", 0⟩]⟩,
         [WatcherLog.newBlock 0]) := by
  refine ⟨⟨Or.inl rfl, by simp⟩, ?_⟩
  have h := c10_missing_block_treated_as_zero "optimism"
    ⟨some 100, some 100, [⟨"optimism", 100⟩]⟩ none (Or.inl rfl) (by simp)
  simpa using h

theorem retryAux_first_ok {T : Type} (func : Nat → Except String T)
    (attempts interval : Nat) :
    ∀ (d a calls slept : Nat) (logs : List String) (v : T),
      a + d < attempts →
      (∀ j, a ≤ j → j < a + d → ∃ e, func j = Except.error e) →
      func (a + d) = Except.ok v →
      (retryAux func attempts interval a calls slept logs).result = Except.ok v
      ∧ (retryAux func attempts interval a calls slept logs).calls = calls + d + 1
      ∧ (retryAux func attempts interval a calls slept logs).sleepMillis
          = slept + d * interval := by
  intro d
  induction d with
  | zero =>
    intro a calls slept logs v hlt _hfail hok
    rw [Nat.add_zero] at hlt hok
    rw [retryAux]
    simp [hlt, hok]
  | succ d ih =>
    intro a calls slept logs v hlt hfail hok
    obtain ⟨e, he⟩ := hfail a (Nat.le_refl _) (by omega)
    have ha : a < attempts := by omega
    have hane : a ≠ attempts - 1 := by omega
    rw [retryAux, if_pos ha]
    simp only [he]
    rw [if_neg hane]
    have harg : a + 1 + d = a + (d + 1) := by omega
    have := ih (a + 1) (calls + 1) (slept + interval) (logs ++ [e]) v
      (by omega)
      (fun j hj1 hj2 => hfail j (by omega) (by omega))
      (by rw [harg]; exact hok)
    refine ⟨this.1, ?_, ?_⟩
    · rw [this.2.1]; omega
    · rw [this.2.2, Nat.succ_mul]; ring

/-- C5: `retry` with `attempts = 3` on an always-failing operation invokes it
exactly 3 times, sleeps exactly twice (total `2 * interval` milliseconds, so
no sleep after the final attempt), and returns the fixed exhaustion error
("Maximum attempts reached ..."), which is independent of — and so
distinguishable from — the operation's own single-attempt error; and for an
operation that first succeeds on 0-based attempt `k < attempts`, `retry`
returns that success after exactly `k + 1` invocations and `k` sleeps. The
model is a total function: no panic is possible. -/
theorem c5_retry_semantics (T : Type) (func : Nat → Except String T)
    (interval : Nat) :
    ((∀ i, ∃ e, func i = Except.error e) →
      (retry func 3 interval).result = Except.error (maxAttemptsMsg 3)
      ∧ (retry func 3 interval).calls = 3
      ∧ (retry func 3 interval).sleepMillis = 2 * interval)
    ∧ (∀ (attempts k : Nat) (v : T), k < attempts →
        (∀ j, j < k → ∃ e, func j = Except.error e) →
        func k = Except.ok v →
        (retry func attempts interval).result = Except.ok v
        ∧ (retry func attempts interval).calls = k + 1
        ∧ (retry func attempts interval).sleepMillis = k * interval) := by
  constructor
  · intro hfail
    obtain ⟨e0, he0⟩ := hfail 0
    obtain ⟨e1, he1⟩ := hfail 1
    obtain ⟨e2, he2⟩ := hfail 2
    have hrun : retry func 3 interval =
        ⟨Except.error (maxAttemptsMsg 3), 3, interval + interval, [e0, e1, e2]⟩ := by
      rw [retry, retryAux, if_pos (show (0 : Nat) < 3 by omega)]
      simp only [he0]
      rw [if_neg (show ¬ (0 : Nat) = 3 - 1 by omega)]
      rw [retryAux, if_pos (show (1 : Nat) < 3 by omega)]
      simp only [he1]
      rw [if_neg (show ¬ (1 : Nat) = 3 - 1 by omega)]
      rw [retryAux, if_pos (show (2 : Nat) < 3 by omega)]
      simp only [he2]
      simp
    rw [hrun]
    refine ⟨rfl, rfl, ?_⟩
    simp
    omega
  · intro attempts k v hk hfail hok
    have h := retryAux_first_ok func attempts interval k 0 0 0 [] v
      (by omega) (fun j _ hj => hfail j (by omega)) (by simpa using hok)
    rw [retry]
    refine ⟨h.1, ?_, ?_⟩
    · rw [h.2.1]; omega
    · rw [h.2.2]; omega

/-- C5 witness: a concrete always-failing operation with interval 7 (three
calls, 14 ms slept, exhaustion error) and a concrete operation succeeding on
the second attempt (two calls, one 7 ms sleep). -/
theorem c5_witness :
    ((retry (fun _ : Nat => (Except.error "boom" : Except String Nat)) 3 7).result
        = Except.error (maxAttemptsMsg 3)
      ∧ (retry (fun _ : Nat => (Except.error "boom" : Except String Nat)) 3 7).calls = 3
      ∧ (retry (fun _ : Nat => (Except.error "boom" : Except String Nat)) 3 7).sleepMillis
          = 14)
    ∧ ((retry (fun i : Nat =>
          if i = 1 then Except.ok 42 else (Except.error "x" : Except String Nat)) 3 7).result
        = Except.ok 42
      ∧ (retry (fun i : Nat =>
          if i = 1 then Except.ok 42 else (Except.error "x" : Except String Nat)) 3 7).calls
          = 2
      ∧ (retry (fun i : Nat =>
          if i = 1 then Except.ok 42 else (Except.error "x" : Except String Nat)) 3 7).sleepMillis
          = 7) := by
  constructor
  · have h := (c5_retry_semantics Nat (fun _ => Except.error "boom") 7).1
      (fun _ => ⟨"boom", rfl⟩)
    simpa using h
  · have h := (c5_retry_semantics Nat
        (fun i => if i = 1 then Except.ok 42 else Except.error "x") 7).2
      3 1 42 (by omega)
      (fun j hj => by
        have hj0 : j = 0 := by omega
        subst hj0
        exact ⟨"x", rfl⟩)
      rfl
    simpa using h

/-- C7 counterexample: with no recorded CurrentHeight (default 0) and a job
at height `2 ^ 64 - 1`, the job's height strictly exceeds the current height,
yet the `u64` wrapping subtraction makes `is_recent` come out `true`. -/
theorem c7_counterexample :
    (0 : Nat) < 2 ^ 64 - 1
    ∧ (processBlock ["optimism"] (fun _ => none) ⟨"optimism", 2 ^ 64 - 1⟩
          (Except.ok (some ⟨some (2 ^ 64 - 1)⟩))).outcome
        = BlockFetchOutcome.processed true := by
  refine ⟨by norm_num, ?_⟩
  have hmem : ("optimism" : String) ∈ ["optimism"] := by simp
  have hrec : isRecentBlock 0 (2 ^ 64 - 1) = true := by
    rw [isRecentBlock, wrappingSub, U64_SIZE_eq]
    norm_num
  simpa [processBlock, hmem] using hrec

/-- C7 (amended): on a successfully fetched block, `process_block` computes
`is_recent` as the `u64` wrapping subtraction
`(current_height - job.height) mod 2 ^ 64` compared against 5, where
`current_height` defaults to 0 when unrecorded; a job whose height exceeds
`current_height` is not recent PROVIDED the excess is at most `2 ^ 64 - 5`
(greater excesses wrap around and are classified recent). -/
theorem c7_recency_wrapping (providers : List String)
    (currentHeights : String → Option Nat) (job : BlockJob) (b : EthBlock)
    (hp : job.network ∈ providers)
    (hjb : job.block < U64_SIZE)
    (hch : (currentHeights job.network).getD 0 < U64_SIZE) :
    (processBlock providers currentHeights job (Except.ok (some b))).outcome
      = BlockFetchOutcome.processed
          (isRecentBlock ((currentHeights job.network).getD 0) job.block)
    ∧ ((currentHeights job.network).getD 0 < job.block →
        job.block - (currentHeights job.network).getD 0 ≤ U64_SIZE - 5 →
        isRecentBlock ((currentHeights job.network).getD 0) job.block = false) := by
  rw [U64_SIZE_eq] at hjb hch
  constructor
  · simp [processBlock, hp]
  · intro hlt hexcess
    rw [U64_SIZE_eq] at hexcess
    rw [isRecentBlock, wrappingSub, U64_SIZE_eq]
    rw [Nat.mod_eq_of_lt (by omega)]
    simp only [decide_eq_false_iff_not, Nat.not_lt]
    omega

/-- C7 witness: the amended statement at current height 10 and job height 12
(excess 2, far below the wrap threshold): the job is not recent. -/
theorem c7_witness :
    ((⟨"optimism", 12⟩ : BlockJob).network ∈ ["optimism"]
      ∧ (12 : Nat) < U64_SIZE
      ∧ ((some 10 : Option Nat).getD 0) < U64_SIZE)
    ∧ (processBlock ["optimism"] (fun _ => some 10) ⟨"optimism", 12⟩
          (Except.ok (some ⟨some 12⟩))).outcome
        = BlockFetchOutcome.processed (isRecentBlock 10 12)
    ∧ (10 < 12 → 12 - 10 ≤ U64_SIZE - 5 → isRecentBlock 10 12 = false) := by
  refine ⟨⟨by simp, by norm_num [U64_SIZE_eq], by norm_num [U64_SIZE_eq]⟩, ?_⟩
  exact c7_recency_wrapping ["optimism"] (fun _ => some 10) ⟨"optimism", 12⟩
    ⟨some 12⟩ (by simp) (by norm_num [U64_SIZE_eq]) (by norm_num [U64_SIZE_eq])

/-- C4: the bloom screen never false-negatives — whenever the bloom field is
a sound summary of the block's logs and an event kind's fingerprint is truly
carried by some log of the block, `matches` includes that kind in the
candidate set; and when the candidate set is empty, `process_block` performs
no log retrieval and completes with zero interesting transactions (in the
current source it never fetches logs on any branch). -/
theorem c4_bloom_screen :
    (∀ (b : BloomBlock) (index : List (EventType × BloomFingerprint))
        (k : EventType) (fp : BloomFingerprint),
        bloomSound b → (k, fp) ∈ index → trulyPresent b fp = true →
        k ∈ bloomMatches b.bloom index)
    ∧ (∀ (providers : List String) (currentHeights : String → Option Nat)
        (job : BlockJob) (fetchResult : Except String (Option EthBlock))
        (bloom : List Nat) (index : List (EventType × BloomFingerprint)),
        bloomMatches bloom index = [] →
        (processBlock providers currentHeights job fetchResult).logsFetched = false
        ∧ (processBlock providers currentHeights job fetchResult).interestingTransactions
            = []) := by
  constructor
  · intro b index k fp hsound hmem htrue
    obtain ⟨log, hlog, hcarr⟩ := List.any_eq_true.mp htrue
    rw [logCarries, Bool.and_eq_true] at hcarr
    obtain ⟨htopic, htarget⟩ := hcarr
    have hsig : fp.sigHash ∈ b.bloom :=
      (hsound log hlog).2 _ (List.elem_iff.mp htopic)
    have hmatch : fingerprintMatches b.bloom fp = true := by
      rw [fingerprintMatches, Bool.and_eq_true]
      refine ⟨List.elem_iff.mpr hsig, ?_⟩
      rcases hfp : fp.target with _ | a
      · rfl
      · rw [hfp] at htarget
        have ha : log.address = a := by simpa [Option.all] using htarget
        have haddr : a ∈ b.bloom := ha ▸ (hsound log hlog).1
        simpa [Option.all, List.elem_iff] using haddr
    rw [bloomMatches]
    exact List.mem_map.mpr ⟨(k, fp), List.mem_filter.mpr ⟨hmem, hmatch⟩, rfl⟩
  · intro providers currentHeights job fetchResult bloom index _hempty
    by_cases hmem : job.network ∈ providers <;>
      rcases fetchResult with e | _ | bb <;>
      simp [processBlock, hmem]

/-- C4 witness: a block whose single log (address 9, topic 7) is summarized
by the bloom field [7, 9]; the index maps BridgeableContractDeployed to the
fingerprint (7, target 9) and the screen reports it; and a processor run
under an empty candidate set fetches no logs and emits no transactions. -/
theorem c4_witness :
    EventType.BridgeableContractDeployed ∈
        bloomMatches [7, 9]
          [(EventType.BridgeableContractDeployed, ⟨7, some 9⟩)]
    ∧ ((processBlock ["optimism"] (fun _ => none) ⟨"optimism", 3⟩
          (Except.ok (some ⟨some 3⟩))).logsFetched = false
        ∧ (processBlock ["optimism"] (fun _ => none) ⟨"optimism", 3⟩
            (Except.ok (some ⟨some 3⟩))).interestingTransactions = []) := by
  constructor
  · exact c4_bloom_screen.1 ⟨[7, 9], [⟨9, [7]⟩]⟩
      [(EventType.BridgeableContractDeployed, ⟨7, some 9⟩)]
      EventType.BridgeableContractDeployed ⟨7, some 9⟩
      (by decide) (by decide) (by decide)
  · exact c4_bloom_screen.2 ["optimism"] (fun _ => none) ⟨"optimism", 3⟩
      (Except.ok (some ⟨some 3⟩)) [] [] rfl

end Holograph
